import Mathlib

/-!
Verification of the Text Analysis & Retrieval Pipeline
(`app/services/llm_service.py`, `app/services/text_processor.py`,
`app/main.py` search scoring).

The Python functions are shallowly embedded as executable Lean
definitions.  Strings are modelled through their character lists;
character classification (`lower`, `upper`, `isalpha`) is modelled at
ASCII precision, matching the ASCII scope of the repository's inputs.
External collaborators (the OpenAI client, `json.loads`, the NLTK
tokenizer and POS tagger) are modelled as parameters describing their
observable outcomes; exceptions are modelled with `Except`.
-/

/-! ## Python string primitives -/

/-- Python `str.lower()` (characterwise ASCII lowering). -/
def pyLower (s : String) : String := String.mk (s.data.map Char.toLower)

/-- Python `str.upper()` (characterwise ASCII uppering). -/
def pyUpper (s : String) : String := String.mk (s.data.map Char.toUpper)

/-- Python `str.title()` restricted to a single alphabetic token:
first character uppercased, the rest lowercased. -/
def pyTitle (s : String) : String :=
  match s.data with
  | [] => ""
  | c :: cs => String.mk (c.toUpper :: cs.map Char.toLower)

/-- Drop whitespace from both ends of a character list (Python `str.strip()`). -/
def stripChars (l : List Char) : List Char :=
  ((l.dropWhile Char.isWhitespace).reverse.dropWhile Char.isWhitespace).reverse

/-- Python `str.strip()` with no argument. -/
def pyStrip (s : String) : String := String.mk (stripChars s.data)

/-- Maximal runs of characters satisfying `p` (the first argument
accumulates the current run, reversed). -/
def runsGo (p : Char → Bool) : List Char → List Char → List (List Char)
  | cur, [] => if cur.isEmpty then [] else [cur.reverse]
  | cur, c :: cs =>
    if p c then runsGo p (c :: cur) cs
    else if cur.isEmpty then runsGo p [] cs
    else cur.reverse :: runsGo p [] cs

/-- Maximal runs of characters satisfying `p` in a character list. -/
def runs (p : Char → Bool) (l : List Char) : List (List Char) := runsGo p [] l

/-- Python `str.split()` with no argument: the maximal runs of
non-whitespace characters. -/
def pySplitWs (s : String) : List String :=
  (runs (fun c => !c.isWhitespace) s.data).map String.mk

/-- Substring test on character lists (Python `sub in s`). -/
def listContainsSub (s sub : List Char) : Bool :=
  sub.isPrefixOf s ||
    match s with
    | [] => false
    | _ :: t => listContainsSub t sub

/-- Python `sub in s` for strings. -/
def pyContains (s sub : String) : Bool := listContainsSub s.data sub.data

/-- Python `s.endswith(suffix)`. -/
def pyEndsWith (s suffix : String) : Bool :=
  suffix.data.reverse.isPrefixOf s.data.reverse

/-! ## Python values (decoded JSON structures) -/

/-- A decoded Python/JSON value, as produced by `json.loads`. -/
inductive PyVal where
  | str (s : String)
  | int (n : Int)
  | bool (b : Bool)
  | pynone
  | list (xs : List PyVal)

/-- Python `repr()` of a value (only the shapes in `PyVal`). -/
def pyRepr : PyVal → String
  | .str s => "'" ++ s ++ "'"
  | .int n => toString n
  | .bool b => if b then "True" else "False"
  | .pynone => "None"
  | .list xs => "[" ++ String.intercalate ", " (xs.attach.map (fun x => pyRepr x.1)) ++ "]"
decreasing_by
  have h := List.sizeOf_lt_of_mem x.2
  simp_wf
  omega

/-- Python `str()` of a value: identity on strings, `repr` otherwise. -/
def pyStr : PyVal → String
  | .str s => s
  | v => pyRepr v

/-! ## `LLMService` (`app/services/llm_service.py`) -/

/-- The decoded metadata dictionary as far as `_validate_metadata`
observes it: the values stored under the keys `"title"`, `"topics"`
and `"sentiment"` (`none` = key absent). -/
structure MetaDict where
  title : Option PyVal
  topics : Option PyVal
  sentiment : Option PyVal

/-- The cleaned metadata structure returned by `_validate_metadata`
and `_mock_metadata`. -/
structure Metadata where
  title : Option String
  topics : List String
  sentiment : String
deriving DecidableEq

/-- The `while len(cleaned_topics) < 3: append(f"Topic {n}")` loop,
with explicit fuel (3 iterations always suffice for the call site). -/
def padTopicsGo : Nat → List String → List String
  | 0, ts => ts
  | fuel + 1, ts =>
    if ts.length < 3 then padTopicsGo fuel (ts ++ ["Topic " ++ toString (ts.length + 1)])
    else ts

/-- Pad a topics list to at least 3 entries with `"Topic {n}"` placeholders. -/
def padTopics (ts : List String) : List String := padTopicsGo 3 ts

/-- The title cleaning of `_validate_metadata`: kept only when the
stored value is a string with non-empty strip. -/
def validatedTitle : Option PyVal → Option String
  | some (.str t) => if pyStrip t ≠ "" then some (pyStrip t) else none
  | _ => none

/-- The topics cleaning of `_validate_metadata`: for a stored list,
stringify-strip the items, drop empties, truncate to 3 and pad with
`"Topic {n}"`; a missing key defaults to `[]` (which is a list); a
stored non-list is replaced by the fixed generic list. -/
def validatedTopics : Option PyVal → List String
  | some (.list ts) =>
    let cleaned_topics :=
      ((ts.filter (fun v => pyStrip (pyStr v) ≠ "")).map (fun v => pyStrip (pyStr v))).take 3
    (padTopics cleaned_topics).take 3
  | none => (padTopics ([] : List String)).take 3
  | some _ => ["General", "Information", "Content"]

/-- The sentiment cleaning of `_validate_metadata` applied to a string
value (the stored value, or the `"neutral"` default when the key is
absent): lowercase, and fall back to `"neutral"` outside the enum. -/
def validatedSentiment (s : String) : String :=
  let sl := pyLower s
  if sl = "positive" ∨ sl = "negative" ∨ sl = "neutral" then sl else "neutral"

/-- `LLMService._validate_metadata`.  The `.error` result models the
`AttributeError` raised by `metadata.get("sentiment", "neutral").lower()`
when the stored sentiment value is present but not a string. -/
def validate_metadata (metadata : MetaDict) : Except String Metadata :=
  match metadata.sentiment with
  | none =>
    .ok { title := validatedTitle metadata.title, topics := validatedTopics metadata.topics,
          sentiment := validatedSentiment "neutral" }
  | some (.str s) =>
    .ok { title := validatedTitle metadata.title, topics := validatedTopics metadata.topics,
          sentiment := validatedSentiment s }
  | some _ => .error "AttributeError"

/-- `LLMService._mock_summary`. -/
def mock_summary (text : String) : String :=
  let words := pySplitWs text
  if words.length ≤ 20 then text
  else "This text discusses " ++ String.intercalate " " (words.take 15) ++
    "... [Summary generated offline]"

/-- `LLMService._mock_metadata` (the computed `words` local is unused in the source). -/
def mock_metadata (_text : String) : Metadata :=
  { title := none, topics := ["General", "Content", "Information"], sentiment := "neutral" }

/-- Outcome of one provider attempt inside `_make_api_call`:
a successful response content, an `asyncio.TimeoutError`, or any other
exception raised by the attempt. -/
inductive AttemptOutcome where
  | success (content : String)
  | timeout
  | failure (msg : String)
deriving DecidableEq

/-- `self.max_retries` from `LLMService.__init__`. -/
def max_retries : Nat := 3

/-- Result of `_make_api_call`: the returned string or the raised
exception, together with the list of backoff sleep durations (in
seconds) performed, in order. -/
structure ApiCallResult where
  result : Except String String
  sleeps : List Nat

/-- The retry loop of `_make_api_call`, starting at a given attempt
index, with fuel for the remaining loop iterations.  On a timeout the
code raises at the last attempt and otherwise proceeds directly to the
next attempt; only the generic exception handler sleeps `2 ** attempt`. -/
def make_api_call_go (attempts : Nat → AttemptOutcome) : Nat → Nat → ApiCallResult
  | _, 0 => { result := .error "loop exhausted", sleeps := [] }
  | attempt, fuel + 1 =>
    match attempts attempt with
    | .success content => { result := .ok (pyStrip content), sleeps := [] }
    | .timeout =>
      if attempt = max_retries - 1 then
        { result := .error "API call timed out after all retries", sleeps := [] }
      else
        make_api_call_go attempts (attempt + 1) fuel
    | .failure msg =>
      if attempt = max_retries - 1 then
        { result := .error msg, sleeps := [] }
      else
        let rest := make_api_call_go attempts (attempt + 1) fuel
        { result := rest.result, sleeps := 2 ^ attempt :: rest.sleeps }

/-- `LLMService._make_api_call`, parameterised by the outcome of each
provider attempt. -/
def make_api_call (attempts : Nat → AttemptOutcome) : ApiCallResult :=
  make_api_call_go attempts 0 max_retries

/-- `LLMService.generate_summary`.  `clientPresent = false` models
`self.client is None`.  The `.ok`/`.error` result models normal return
versus an uncaught exception (the handlers make the latter impossible). -/
def generate_summary (clientPresent : Bool) (attempts : Nat → AttemptOutcome)
    (text : String) : Except String String :=
  if clientPresent = false then .ok (mock_summary text)
  else
    match (make_api_call attempts).result with
    | .error _ => .ok (mock_summary text)
    | .ok response =>
      let summary := pyStrip response
      let sentences := summary.splitOn "."
      .ok (if sentences.length > 3 then String.intercalate ". " (sentences.take 2) ++ "."
           else summary)

/-- Outcome of `json.loads(response)`: a dictionary, a decoded
non-dictionary value (on which `.get` then raises `AttributeError`),
or a `json.JSONDecodeError`. -/
inductive ParseOutcome where
  | dict (m : MetaDict)
  | nonDict
  | decodeError

/-- `LLMService.extract_metadata`, parameterised by the client
presence, the per-attempt provider outcomes and the behaviour of
`json.loads` on the provider response.  The inner `try` catches only
`JSONDecodeError`; every other exception reaches the outer handler,
which resolves to `_mock_metadata`. -/
def extract_metadata (clientPresent : Bool) (attempts : Nat → AttemptOutcome)
    (jsonLoads : String → ParseOutcome) (text : String) : Except String Metadata :=
  if clientPresent = false then .ok (mock_metadata text)
  else
    let tryBlock : Except String Metadata :=
      match (make_api_call attempts).result with
      | .error e => .error e
      | .ok response =>
        match jsonLoads response with
        | .decodeError => .ok (mock_metadata text)
        | .nonDict => .error "AttributeError"
        | .dict m => validate_metadata m
    match tryBlock with
    | .error _ => .ok (mock_metadata text)
    | .ok md => .ok md

/-! ## `TextProcessor` (`app/services/text_processor.py`) -/

/-- Python `\w` at ASCII precision: letters, digits, underscore. -/
def wordChar (c : Char) : Bool := c.isAlphanum || c = '_'

/-- Maximal runs of word characters in a character list. -/
def wordRuns (l : List Char) : List (List Char) := runs wordChar l

/-- Matches of `re.findall(r'\b\w+\b', s)`: all maximal word-character runs. -/
def regexWordTokens (s : String) : List String := (wordRuns s.data).map String.mk

/-- Matches of `re.findall(r'\b[a-zA-Z]{3,}\b', s)`: the maximal
word-character runs that are purely alphabetic and of length at least 3
(a run containing a digit or underscore admits no interior `\b`). -/
def regexAlphaTokens (s : String) : List String :=
  ((wordRuns s.data).filter (fun r => decide (3 ≤ r.length) && r.all Char.isAlpha)).map String.mk

/-- Python `str.isalpha()`: non-empty and all characters alphabetic. -/
def pyIsAlphaStr (s : String) : Bool := !s.data.isEmpty && s.data.all Char.isAlpha

/-- The distinct elements of a list in first-occurrence order
(the key order of `collections.Counter` / `dict`). -/
def dedupFirst (l : List String) : List String :=
  l.foldl (fun acc x => if acc.contains x then acc else acc ++ [x]) []

/-- Stable insertion step for a descending sort by score: `x` is placed
before the first element of strictly lower or equal-and-later score,
i.e. before the first `y` with `score y ≤ score x`. -/
def insertDescBy (score : String → Int) (x : String) : List String → List String
  | [] => [x]
  | y :: ys => if score y ≤ score x then x :: y :: ys else y :: insertDescBy score x ys

/-- Stable sort, descending by score (ties keep first-occurrence order),
modelling Python's stable `sort(reverse=True)` and `Counter.most_common`. -/
def stableSortDescBy (score : String → Int) : List String → List String
  | [] => []
  | x :: xs => insertDescBy score x (stableSortDescBy score xs)

/-- `Counter(xs).most_common(k)` keys: distinct elements sorted by
descending count, ties in first-occurrence order, truncated to `k`. -/
def counterMostCommon (xs : List String) (k : Nat) : List String :=
  (stableSortDescBy (fun w => (xs.count w : Int)) (dedupFirst xs)).take k

/-- The filtered word list of `_extract_with_regex`: alphabetic tokens
of length at least 3 from the lowercased text, minus stop words. -/
def regexFiltered (stop_words : List String) (text0 : String) : List String :=
  (regexAlphaTokens (pyLower text0)).filter (fun w => !stop_words.contains w)

/-- The score `_extract_with_regex` assigns to a distinct token:
occurrence count, +1 for length over 4, -1 for a common verb suffix,
+1 for the capitalization bonus — whose membership tests run against
the already-lowercased `text` variable, exactly as in the source. -/
def regexScore (stop_words : List String) (text0 : String) (word : String) : Int :=
  ((regexFiltered stop_words text0).count word : Int)
    + (if 4 < word.length then 1 else 0)
    + (if pyEndsWith word "ing" || pyEndsWith word "ed" || pyEndsWith word "er" ||
         pyEndsWith word "ly" then -1 else 0)
    + (if pyContains (pyLower text0) (pyTitle word) || pyContains (pyLower text0) (pyUpper word)
       then 1 else 0)

/-- `TextProcessor._extract_with_regex`. -/
def extract_with_regex (stop_words : List String) (text0 : String) (top_k : Nat) : List String :=
  let filtered_words := regexFiltered stop_words text0
  if filtered_words.isEmpty then []
  else
    (stableSortDescBy (regexScore stop_words text0) (dedupFirst filtered_words)).take top_k

/-- Outcome of `word_tokenize(text.lower())`: a token list, a
`LookupError` (handled by the regex fallback tokenization), or any
other exception (which aborts `_extract_with_nltk`). -/
inductive TokenizeResult where
  | ok (tokens : List String)
  | lookupError
  | otherError

/-- The external NLP collaborators of `TextProcessor`: the configured
stop-word set, `word_tokenize`, and `pos_tag` abstracted to the per-token
Boolean `pos.startswith('NN')` mask (`none` models `pos_tag` raising). -/
structure NlpEnv where
  stop_words : List String
  tokenize : String → TokenizeResult
  tagNounMask : List String → Option (List Bool)

/-- The token filter of `_extract_with_nltk`: not a stop word,
length over 2, and `isalpha()`. -/
def filteredTokens (stop_words : List String) (tokens : List String) : List String :=
  tokens.filter (fun t => !stop_words.contains t && decide (2 < t.length) && pyIsAlphaStr t)

/-- Keep the words whose POS tag starts with `NN`, given the Boolean mask. -/
def applyMask (ws : List String) (mask : List Bool) : List String :=
  (ws.zip mask).filterMap (fun p => if p.2 then some p.1 else none)

/-- The body of `_extract_with_nltk` after tokenization. -/
def nltkFrom (env : NlpEnv) (tokens : List String) (top_k : Nat) : List String :=
  let filtered_tokens := filteredTokens env.stop_words tokens
  let nouns :=
    match env.tagNounMask filtered_tokens with
    | some mask => applyMask filtered_tokens mask
    | none => filtered_tokens
  if nouns.isEmpty then [] else counterMostCommon nouns top_k

/-- `TextProcessor._extract_with_nltk`; `none` models the method
raising (tokenizer failure other than `LookupError`). -/
def extract_with_nltk (env : NlpEnv) (text : String) (top_k : Nat) : Option (List String) :=
  match env.tokenize (pyLower text) with
  | .otherError => none
  | .lookupError => some (nltkFrom env (regexWordTokens (pyLower text)) top_k)
  | .ok ts => some (nltkFrom env ts top_k)

/-- `TextProcessor.extract_keywords`. -/
def extract_keywords (env : NlpEnv) (text : String) (top_k : Nat) : List String :=
  if pyStrip text = "" then []
  else
    match extract_with_nltk env text top_k with
    | some res => res
    | none => extract_with_regex env.stop_words text top_k

/-- The fallback-marker suffix produced by `_mock_summary`. -/
def fallbackMarker : String := "[Summary generated offline]"

/-- Python `min` on two rationals, kept computable. -/
def pyMin (a b : ℚ) : ℚ := if a ≤ b then a else b

/-- Python `max` on two rationals, kept computable. -/
def pyMax (a b : ℚ) : ℚ := if a ≤ b then b else a

/-- `TextProcessor.calculate_confidence_score`, with the float
arithmetic modelled exactly over the rationals. -/
def calculate_confidence_score (text summary : String) (keywords : List String) : ℚ :=
  let score1 : ℚ := if text ≠ "" ∧ summary ≠ "" then 0.3 else 0
  let text_length := (pySplitWs text).length
  let score2 : ℚ :=
    score1 + (if 50 < text_length then 0.2 else if 20 < text_length then 0.1 else 0)
  let score3 : ℚ :=
    score2 + (if keywords ≠ [] then 0.2 * ((keywords.length : ℚ) / 3) else 0)
  let score4 : ℚ :=
    score3 + (if summary ≠ "" ∧ pyEndsWith summary fallbackMarker = false then 0.3 else 0.1)
  pyMin 1 (pyMax 0 score4)

/-! ## Search result scoring (`app/main.py`, `search_analyses` endpoint) -/

/-- The fields of a stored analysis row the score computation reads
(the JSON list columns are nullable). -/
structure AnalysisRecord where
  topics : Option (List String)
  keywords : Option (List String)
  sentiment : String

/-- `sum(1 for t in items if filt.lower() in t.lower())`. -/
def ciMatchCount (filt : String) (items : List String) : Nat :=
  (items.filter (fun t => pyContains (pyLower t) (pyLower filt))).length

/-- The `if topic and analysis.topics:` block of the endpoint:
0.2 per topic containing the filter, case-insensitively; skipped when
the filter or the stored list is absent or falsy. -/
def topicScoreContribution (topic : Option String) (tps : Option (List String)) : ℚ :=
  match topic, tps with
  | some tp, some ts => if tp ≠ "" ∧ ts ≠ [] then 0.2 * (ciMatchCount tp ts : ℚ) else 0
  | _, _ => 0

/-- The `if keyword and analysis.keywords:` block of the endpoint. -/
def keywordScoreContribution (keyword : Option String) (kws : Option (List String)) : ℚ :=
  match keyword, kws with
  | some kw, some ks => if kw ≠ "" ∧ ks ≠ [] then 0.15 * (ciMatchCount kw ks : ℚ) else 0
  | _, _ => 0

/-- The `if sentiment and analysis.sentiment == sentiment.lower():`
block of the endpoint. -/
def sentimentScoreContribution (sentiment : Option String) (snt : String) : ℚ :=
  match sentiment with
  | some s => if s ≠ "" ∧ snt = pyLower s then 0.3 else 0
  | none => 0

/-- The per-result confidence computation of the `/search` endpoint.
`none` filters model absent query parameters; an empty string is falsy
in Python and is skipped the same way. -/
def search_confidence (topic keyword sentiment : Option String) (a : AnalysisRecord) : ℚ :=
  let c1 : ℚ := 0.5 + topicScoreContribution topic a.topics
  let c2 : ℚ := c1 + keywordScoreContribution keyword a.keywords
  let c3 : ℚ := c2 + sentimentScoreContribution sentiment a.sentiment
  pyMin c3 1

/-- Python truthiness of an optional string parameter. -/
def optGiven : Option String → Bool
  | none => false
  | some s => s ≠ ""

/-- The per-result score formula exactly as claim C8 states it:
0.5, plus 0.2 per topic match when `topic` is given, plus 0.15 per
keyword match when `keyword` is given, plus 0.3 on a sentiment match,
clamped to at most 1. -/
def claimed_search_confidence (topic keyword sentiment : Option String)
    (a : AnalysisRecord) : ℚ :=
  pyMin (0.5
    + (if optGiven topic then 0.2 * (ciMatchCount (topic.getD "") (a.topics.getD []) : ℚ) else 0)
    + (if optGiven keyword then
         0.15 * (ciMatchCount (keyword.getD "") (a.keywords.getD []) : ℚ) else 0)
    + (if optGiven sentiment ∧ a.sentiment = pyLower (sentiment.getD "") then 0.3 else 0)) 1

/-- Re-embed a cleaned `Metadata` value as the dictionary
`{"title": ..., "topics": [...], "sentiment": ...}` that
`_validate_metadata` would receive on a second pass. -/
def metaDictOf (md : Metadata) : MetaDict :=
  { title := some (match md.title with | some t => .str t | none => .pynone),
    topics := some (.list (md.topics.map .str)),
    sentiment := some (.str md.sentiment) }

/-- A concrete NLP environment for evaluating the keyword extractor:
the tokenizer raises `LookupError` (so the built-in fallback
tokenization runs) and the POS tagger raises. -/
def sampleNlpEnv : NlpEnv :=
  { stop_words := ["the"],
    tokenize := fun _ => .lookupError,
    tagNounMask := fun _ => none }

/-! ## Helper lemmas: metadata validation shape -/

theorem padTopicsGo_length_ge (fuel : Nat) : ∀ ts : List String, 3 ≤ ts.length + fuel →
    3 ≤ (padTopicsGo fuel ts).length := by
  induction fuel with
  | zero => intro ts h; rw [padTopicsGo]; omega
  | succ n ih =>
    intro ts h
    rw [padTopicsGo]
    split
    · exact ih _ (by simp only [List.length_append, List.length_cons, List.length_nil]; omega)
    · omega

theorem padTopics_length_ge (ts : List String) : 3 ≤ (padTopics ts).length :=
  padTopicsGo_length_ge 3 ts (by omega)

theorem validatedTopics_length (tv : Option PyVal) : (validatedTopics tv).length = 3 := by
  rcases tv with _ | v
  · rfl
  · rcases v with s | n | b | _ | xs
    · rfl
    · rfl
    · rfl
    · rfl
    · rw [validatedTopics]
      have h := padTopics_length_ge
        (((xs.filter (fun v => pyStrip (pyStr v) ≠ "")).map (fun v => pyStrip (pyStr v))).take 3)
      rw [List.length_take]
      omega

theorem validatedSentiment_enum (s : String) :
    validatedSentiment s = "positive" ∨ validatedSentiment s = "neutral" ∨
      validatedSentiment s = "negative" := by
  rw [validatedSentiment]
  split
  · rename_i h
    rcases h with h | h | h
    · exact Or.inl h
    · exact Or.inr (Or.inr h)
    · exact Or.inr (Or.inl h)
  · exact Or.inr (Or.inl rfl)

theorem validate_metadata_ok_shape (m : MetaDict) (md : Metadata)
    (h : validate_metadata m = .ok md) :
    (md.sentiment = "positive" ∨ md.sentiment = "neutral" ∨ md.sentiment = "negative") ∧
    md.topics.length = 3 := by
  rcases m with ⟨ti, tv, se⟩
  rw [validate_metadata] at h
  rcases se with _ | v
  · simp only [Except.ok.injEq] at h
    subst h
    exact ⟨validatedSentiment_enum "neutral", validatedTopics_length tv⟩
  · rcases v with s | n | b | _ | xs
    · simp only [Except.ok.injEq] at h
      subst h
      exact ⟨validatedSentiment_enum s, validatedTopics_length tv⟩
    · exact absurd h (by simp)
    · exact absurd h (by simp)
    · exact absurd h (by simp)
    · exact absurd h (by simp)

theorem mock_metadata_shape (text : String) :
    (mock_metadata text).sentiment = "neutral" ∧ (mock_metadata text).topics.length = 3 :=
  ⟨rfl, rfl⟩

/-- C1: For every non-empty input text, the analyze operation produces an
analysis record whose sentiment is one of {positive, neutral, negative}
and whose topics list has length exactly 3, on every path (validated
provider output, malformed provider output, provider exhaustion, or
absent client, all of which route through `_validate_metadata` or
`_mock_metadata`).  Proved for every text and every provider behaviour. -/
theorem extract_metadata_sentiment_topics_invariant (clientPresent : Bool)
    (attempts : Nat → AttemptOutcome) (jsonLoads : String → ParseOutcome) (text : String) :
    ∃ md, extract_metadata clientPresent attempts jsonLoads text = .ok md ∧
      (md.sentiment = "positive" ∨ md.sentiment = "neutral" ∨ md.sentiment = "negative") ∧
      md.topics.length = 3 := by
  rw [extract_metadata]
  cases clientPresent
  · exact ⟨mock_metadata text, by simp, Or.inr (Or.inl rfl), rfl⟩
  · simp only [Bool.true_eq_false, if_neg, reduceCtorEq, if_false]
    rcases hr : (make_api_call attempts).result with e | response
    · exact ⟨mock_metadata text, by simp, Or.inr (Or.inl rfl), rfl⟩
    · rcases hp : jsonLoads response with m | _ | _
      · rcases hv : validate_metadata m with e | md
        · exact ⟨mock_metadata text, by simp [hp, hv], Or.inr (Or.inl rfl), rfl⟩
        · exact ⟨md, by simp [hp, hv], validate_metadata_ok_shape m md hv⟩
      · exact ⟨mock_metadata text, by simp [hp], Or.inr (Or.inl rfl), rfl⟩
      · exact ⟨mock_metadata text, by simp [hp], Or.inr (Or.inl rfl), rfl⟩

/-! ## Helper lemmas: retry exhaustion -/

theorem make_api_call_exhausted (attempts : Nat → AttemptOutcome)
    (h : ∀ i c, attempts i ≠ .success c) :
    (make_api_call attempts).result.isOk = false := by
  rcases h0 : attempts 0 with c | _ | m <;>
  rcases h1 : attempts 1 with c' | _ | m' <;>
  rcases h2 : attempts 2 with c'' | _ | m'' <;>
  first
    | exact absurd h0 (h 0 _)
    | exact absurd h1 (h 1 _)
    | exact absurd h2 (h 2 _)
    | simp [make_api_call, make_api_call_go, max_retries, h0, h1, h2, Except.isOk, Except.toBool]

/-- C2: For every input text and every provider behaviour (timeout,
transport error, or malformed JSON response), `generate_summary` and
`extract_metadata` never raise an exception, and after retry
exhaustion (no attempt succeeds) they return the deterministic mock
fallback result instead of propagating the error. -/
theorem llm_service_absorbs_provider_failures (clientPresent : Bool)
    (attempts : Nat → AttemptOutcome) (jsonLoads : String → ParseOutcome) (text : String) :
    ((∃ s, generate_summary clientPresent attempts text = .ok s) ∧
     (∃ md, extract_metadata clientPresent attempts jsonLoads text = .ok md)) ∧
    ((∀ i c, attempts i ≠ .success c) →
      generate_summary clientPresent attempts text = .ok (mock_summary text) ∧
      extract_metadata clientPresent attempts jsonLoads text = .ok (mock_metadata text)) := by
  refine ⟨⟨?_, ?_⟩, ?_⟩
  · rw [generate_summary]
    cases clientPresent
    · exact ⟨mock_summary text, by simp⟩
    · simp only [Bool.true_eq_false, reduceCtorEq, if_false]
      rcases hr : (make_api_call attempts).result with e | response
      · exact ⟨mock_summary text, rfl⟩
      · exact ⟨_, rfl⟩
  · obtain ⟨md, hmd, _⟩ :=
      extract_metadata_sentiment_topics_invariant clientPresent attempts jsonLoads text
    exact ⟨md, hmd⟩
  · intro h
    have hres := make_api_call_exhausted attempts h
    constructor
    · rw [generate_summary]
      cases clientPresent
      · simp
      · simp only [Bool.true_eq_false, reduceCtorEq, if_false]
        rcases hr : (make_api_call attempts).result with e | response
        · rfl
        · rw [hr] at hres; exact absurd hres (by simp [Except.isOk, Except.toBool])
    · rw [extract_metadata]
      cases clientPresent
      · simp
      · simp only [Bool.true_eq_false, reduceCtorEq, if_false]
        rcases hr : (make_api_call attempts).result with e | response
        · rfl
        · rw [hr] at hres; exact absurd hres (by simp [Except.isOk, Except.toBool])

/-- Witness for C2 at a concrete exhausting run: every attempt times
out, and both operations resolve to the mock fallback. -/
theorem llm_service_absorbs_provider_failures_witness :
    (∀ i c, (fun _ : Nat => AttemptOutcome.timeout) i ≠ AttemptOutcome.success c) ∧
    (generate_summary true (fun _ : Nat => AttemptOutcome.timeout) "hello world" =
      .ok (mock_summary "hello world") ∧
     extract_metadata true (fun _ : Nat => AttemptOutcome.timeout) (fun _ : String => ParseOutcome.decodeError)
       "hello world" = .ok (mock_metadata "hello world")) := by
  have hne : ∀ i c, (fun _ : Nat => AttemptOutcome.timeout) i ≠ AttemptOutcome.success c := by
    intro i c hc
    exact AttemptOutcome.noConfusion hc
  exact ⟨hne,
    (llm_service_absorbs_provider_failures true (fun _ : Nat => AttemptOutcome.timeout)
      (fun _ : String => ParseOutcome.decodeError) "hello world").2 hne⟩

/-- C3 counterexample: attempt 0 fails with a timeout and attempt 1
begins (and succeeds), with 0 < max_retries - 1, yet no backoff wait
of 2^0 seconds (nor any wait) is performed: the `asyncio.sleep` call
sits only in the generic exception handler, not in the
`asyncio.TimeoutError` handler. -/
theorem timeout_backoff_counterexample :
    (fun i => if i = 0 then AttemptOutcome.timeout else AttemptOutcome.success "ok") 0 =
      AttemptOutcome.timeout ∧
    (0 : Nat) < max_retries - 1 ∧
    (make_api_call
      (fun i => if i = 0 then AttemptOutcome.timeout else AttemptOutcome.success "ok")).result =
      Except.ok "ok" ∧
    (make_api_call
      (fun i => if i = 0 then AttemptOutcome.timeout else AttemptOutcome.success "ok")).sleeps =
      [] :=
  ⟨rfl, by decide, rfl, rfl⟩

/-- C3 amended: in `_make_api_call`, for every failed attempt with
index i < max_retries - 1 that is actually executed, a wait of 2^i
seconds is performed before the next attempt exactly when the failure
is a non-timeout provider error; a timed-out attempt proceeds to the
next attempt with no backoff wait. -/
theorem backoff_sleep_iff_nontimeout_failure (attempts : Nat → AttemptOutcome) (i : Nat)
    (hi : i < max_retries - 1)
    (hexec : ∀ j, j < i → ∀ c, attempts j ≠ AttemptOutcome.success c) :
    (2 ^ i ∈ (make_api_call attempts).sleeps ↔ ∃ m, attempts i = AttemptOutcome.failure m) := by
  have hi2 : i < 2 := by simpa [max_retries] using hi
  interval_cases i
  · rcases h0 : attempts 0 with c | _ | m <;>
    rcases h1 : attempts 1 with c' | _ | m' <;>
    rcases h2 : attempts 2 with c'' | _ | m'' <;>
    simp [make_api_call, make_api_call_go, max_retries, h0, h1, h2]
  · rcases h0 : attempts 0 with c | _ | m
    · exact absurd h0 (hexec 0 (by omega) c)
    · rcases h1 : attempts 1 with c' | _ | m' <;>
      rcases h2 : attempts 2 with c'' | _ | m'' <;>
      simp [make_api_call, make_api_call_go, max_retries, h0, h1, h2]
    · rcases h1 : attempts 1 with c' | _ | m' <;>
      rcases h2 : attempts 2 with c'' | _ | m'' <;>
      simp [make_api_call, make_api_call_go, max_retries, h0, h1, h2]

/-- Witness for the amended C3 at a concrete run: attempt 0 fails with
a generic provider error, so the 2^0 = 1 second backoff wait occurs. -/
theorem backoff_sleep_iff_nontimeout_failure_witness :
    ((0 : Nat) < max_retries - 1) ∧
    ((2 : Nat) ^ 0 ∈ (make_api_call (fun _ : Nat => AttemptOutcome.failure "boom")).sleeps ↔
      ∃ m, (fun _ : Nat => AttemptOutcome.failure "boom") 0 = AttemptOutcome.failure m) :=
  ⟨by decide,
   backoff_sleep_iff_nontimeout_failure (fun _ : Nat => AttemptOutcome.failure "boom") 0
     (by decide) (fun j hj c => absurd hj (by omega))⟩

/-- C4: evaluation at the failing input.  On the decoded dictionary
`{"sentiment": 5}` (title and topics absent, sentiment present but not
a string), `_validate_metadata` raises `AttributeError` from
`metadata.get("sentiment", "neutral").lower()` instead of returning a
cleaned structure. -/
theorem validate_metadata_raises_on_nonstring_sentiment :
    validate_metadata { title := none, topics := none, sentiment := some (.int 5) } =
      .error "AttributeError" := rfl

/-- C7: For every input text, when the provider client is absent, the
produced summary either equals the input text verbatim (at most 20
whitespace-separated words) or is the fixed-pattern truncation
`"This text discusses "` + first 15 words + `"... [Summary generated
offline]"`. -/
theorem offline_summary_shape (attempts : Nat → AttemptOutcome) (text : String) :
    generate_summary false attempts text =
      .ok (if (pySplitWs text).length ≤ 20 then text
           else "This text discusses " ++ String.intercalate " " ((pySplitWs text).take 15) ++
             "... [Summary generated offline]") := by
  rw [generate_summary, mock_summary]
  simp

/-! ## Helper lemmas: strip idempotence and validator idempotence -/

theorem dropWhile_dropWhile (p : Char → Bool) (l : List Char) :
    (l.dropWhile p).dropWhile p = l.dropWhile p := by
  induction l with
  | nil => rfl
  | cons a t ih =>
    rw [List.dropWhile_cons]
    split
    · exact ih
    · rename_i ha
      rw [List.dropWhile_cons, if_neg ha]

theorem dropWhile_eq_self_of_prefix (p : Char → Bool) {l l' : List Char}
    (hpre : l' <+: l) (h : l.dropWhile p = l) : l'.dropWhile p = l' := by
  rcases l' with _ | ⟨c, t⟩
  · rfl
  · rcases l with _ | ⟨a, s⟩
    · rcases hpre with ⟨r, hr⟩
      exact absurd hr (by simp)
    · have hca : c = a := by
        rcases hpre with ⟨r, hr⟩
        exact (List.cons.injEq _ _ _ _ ▸ hr).1
      subst hca
      rw [List.dropWhile_cons] at h ⊢
      split at h
      · have hsuf := List.dropWhile_suffix (l := s) p
        have hlen := hsuf.length_le
        rw [h] at hlen
        simp at hlen
      · rename_i hc
        rw [if_neg hc]

theorem stripChars_idem (l : List Char) : stripChars (stripChars l) = stripChars l := by
  have hAdrop : ((l.dropWhile Char.isWhitespace).dropWhile Char.isWhitespace) =
      l.dropWhile Char.isWhitespace := dropWhile_dropWhile _ l
  have hBpre : stripChars l <+: l.dropWhile Char.isWhitespace := by
    have h1 := List.dropWhile_suffix (l := (l.dropWhile Char.isWhitespace).reverse)
      Char.isWhitespace
    have h2 := (@List.reverse_prefix Char
      ((l.dropWhile Char.isWhitespace).reverse.dropWhile Char.isWhitespace)
      (l.dropWhile Char.isWhitespace).reverse).mpr h1
    simpa [stripChars] using h2
  have hBdrop : (stripChars l).dropWhile Char.isWhitespace = stripChars l :=
    dropWhile_eq_self_of_prefix _ hBpre hAdrop
  have hBrev : (stripChars l).reverse.dropWhile Char.isWhitespace = (stripChars l).reverse := by
    rw [stripChars, List.reverse_reverse]
    exact dropWhile_dropWhile _ _
  conv_lhs => rw [stripChars, hBdrop, hBrev, List.reverse_reverse]

theorem pyStrip_idem (s : String) : pyStrip (pyStrip s) = pyStrip s :=
  congrArg String.mk (stripChars_idem s.data)

theorem validatedTitle_canonical (ti : Option String)
    (h : ∀ t, ti = some t → pyStrip t = t ∧ t ≠ "") :
    validatedTitle (some (match ti with | some t => .str t | none => .pynone)) = ti := by
  rcases ti with _ | t
  · rfl
  · obtain ⟨h1, h2⟩ := h t rfl
    rw [validatedTitle]
    rw [if_pos (by rw [h1]; exact h2), h1]

theorem validatedSentiment_canonical (s : String)
    (h : s = "positive" ∨ s = "neutral" ∨ s = "negative") :
    validatedSentiment s = s := by
  rcases h with h | h | h <;> subst h <;> rfl

theorem validatedTopics_canonical (tp : List String) (hlen : tp.length = 3)
    (htop : ∀ t ∈ tp, pyStrip t = t ∧ t ≠ "") :
    validatedTopics (some (.list (tp.map .str))) = tp := by
  rw [validatedTopics]
  have hfil : (tp.map PyVal.str).filter (fun v => pyStrip (pyStr v) ≠ "") =
      (tp.filter (fun t => pyStrip (pyStr (PyVal.str t)) ≠ "")).map PyVal.str :=
    List.filter_map PyVal.str tp
  have hfil2 : tp.filter (fun t => pyStrip (pyStr (PyVal.str t)) ≠ "") = tp := by
    rw [List.filter_eq_self]
    intro t ht
    obtain ⟨h1, h2⟩ := htop t ht
    simpa [pyStr, h1] using h2
  rw [hfil, hfil2, List.map_map]
  have hmap : tp.map ((fun v => pyStrip (pyStr v)) ∘ PyVal.str) = tp := by
    have := List.map_congr_left (l := tp)
      (f := (fun v => pyStrip (pyStr v)) ∘ PyVal.str) (g := id)
      (fun t ht => (htop t ht).1)
    simpa using this
  rw [hmap]
  have htake : tp.take 3 = tp := by
    rw [← hlen]
    exact List.take_length tp
  rw [htake, padTopics, padTopicsGo, if_neg (by omega), htake]

theorem validatedTitle_output (tiv : Option PyVal) :
    ∀ t, validatedTitle tiv = some t → pyStrip t = t ∧ t ≠ "" := by
  intro t h
  rcases tiv with _ | v
  · exact absurd h (by simp [validatedTitle])
  · rcases v with s | n | b | _ | xs
    · rw [validatedTitle] at h
      split at h
      · rename_i hne
        have ht : pyStrip s = t := by simpa using h
        subst ht
        exact ⟨pyStrip_idem s, hne⟩
      · exact absurd h (by simp)
    · exact absurd h (by simp [validatedTitle])
    · exact absurd h (by simp [validatedTitle])
    · exact absurd h (by simp [validatedTitle])
    · exact absurd h (by simp [validatedTitle])

theorem mem_padTopicsGo (fuel : Nat) : ∀ (ts : List String) (x : String),
    x ∈ padTopicsGo fuel ts →
    x ∈ ts ∨ x = "Topic 1" ∨ x = "Topic 2" ∨ x = "Topic 3" := by
  induction fuel with
  | zero =>
    intro ts x hx
    rw [padTopicsGo] at hx
    exact Or.inl hx
  | succ n ih =>
    intro ts x hx
    rw [padTopicsGo] at hx
    split at hx
    · rename_i hlt
      rcases ih _ x hx with hmem | htag
      · rcases List.mem_append.mp hmem with h1 | h2
        · exact Or.inl h1
        · have hx1 : x = "Topic " ++ toString (ts.length + 1) := by simpa using h2
          have h3 : ts.length = 0 ∨ ts.length = 1 ∨ ts.length = 2 := by omega
          rcases h3 with h | h | h <;> rw [h] at hx1 <;> subst hx1
          · exact Or.inr (Or.inl rfl)
          · exact Or.inr (Or.inr (Or.inl rfl))
          · exact Or.inr (Or.inr (Or.inr rfl))
      · exact Or.inr htag
    · exact Or.inl hx

theorem validatedTopics_output (tv : Option PyVal) :
    ∀ t ∈ validatedTopics tv, pyStrip t = t ∧ t ≠ "" := by
  intro t ht
  rcases tv with _ | v
  · have he : validatedTopics none = ["Topic 1", "Topic 2", "Topic 3"] := rfl
    rw [he] at ht
    fin_cases ht <;> exact ⟨by decide, by decide⟩
  · rcases v with s | n | b | _ | xs
    · fin_cases ht <;> exact ⟨by decide, by decide⟩
    · fin_cases ht <;> exact ⟨by decide, by decide⟩
    · fin_cases ht <;> exact ⟨by decide, by decide⟩
    · fin_cases ht <;> exact ⟨by decide, by decide⟩
    · rw [validatedTopics] at ht
      have ht2 := List.take_subset 3 _ ht
      rcases mem_padTopicsGo 3 _ t ht2 with hmem | h | h | h
      · have ht3 := List.take_subset 3 _ hmem
        rcases List.mem_map.mp ht3 with ⟨v, hv, hvt⟩
        have hvne := (List.mem_filter.mp hv).2
        subst hvt
        refine ⟨pyStrip_idem _, ?_⟩
        simpa using hvne
      · subst h; exact ⟨by decide, by decide⟩
      · subst h; exact ⟨by decide, by decide⟩
      · subst h; exact ⟨by decide, by decide⟩

theorem validate_metadata_ok_canonical (m : MetaDict) (md : Metadata)
    (h : validate_metadata m = .ok md) :
    (∀ t, md.title = some t → pyStrip t = t ∧ t ≠ "") ∧ md.topics.length = 3 ∧
    (∀ t ∈ md.topics, pyStrip t = t ∧ t ≠ "") ∧
    (md.sentiment = "positive" ∨ md.sentiment = "neutral" ∨ md.sentiment = "negative") := by
  rcases m with ⟨ti, tv, se⟩
  rw [validate_metadata] at h
  rcases se with _ | v
  · simp only [Except.ok.injEq] at h
    subst h
    exact ⟨validatedTitle_output ti, validatedTopics_length tv,
      validatedTopics_output tv, validatedSentiment_enum "neutral"⟩
  · rcases v with s | n | b | _ | xs
    · simp only [Except.ok.injEq] at h
      subst h
      exact ⟨validatedTitle_output ti, validatedTopics_length tv,
        validatedTopics_output tv, validatedSentiment_enum s⟩
    · exact absurd h (by simp)
    · exact absurd h (by simp)
    · exact absurd h (by simp)
    · exact absurd h (by simp)

/-- C9: the Metadata Validator is idempotent: validating a structure
already in canonical shape (title a non-empty stripped string or null,
exactly 3 non-empty stripped topics, sentiment in the enum) returns an
equal structure, and revalidating any successful validation output
returns that output unchanged. -/
theorem validate_metadata_idempotent :
    (∀ md : Metadata,
      (∀ t, md.title = some t → pyStrip t = t ∧ t ≠ "") →
      md.topics.length = 3 →
      (∀ t ∈ md.topics, pyStrip t = t ∧ t ≠ "") →
      (md.sentiment = "positive" ∨ md.sentiment = "neutral" ∨ md.sentiment = "negative") →
      validate_metadata (metaDictOf md) = .ok md) ∧
    (∀ (m : MetaDict) (md : Metadata),
      validate_metadata m = .ok md → validate_metadata (metaDictOf md) = .ok md) := by
  have hcanon : ∀ md : Metadata,
      (∀ t, md.title = some t → pyStrip t = t ∧ t ≠ "") →
      md.topics.length = 3 →
      (∀ t ∈ md.topics, pyStrip t = t ∧ t ≠ "") →
      (md.sentiment = "positive" ∨ md.sentiment = "neutral" ∨ md.sentiment = "negative") →
      validate_metadata (metaDictOf md) = .ok md := by
    intro md h1 h2 h3 h4
    rcases md with ⟨ti, tp, se⟩
    rcases ti with _ | t
    · rw [metaDictOf, validate_metadata]
      dsimp only
      rw [validatedTopics_canonical tp h2 h3, validatedSentiment_canonical se h4]
      rfl
    · obtain ⟨ht1, ht2⟩ := h1 t rfl
      rw [metaDictOf, validate_metadata]
      dsimp only [validatedTitle]
      rw [validatedTopics_canonical tp h2 h3, validatedSentiment_canonical se h4,
        if_pos (by rw [ht1]; exact ht2), ht1]
  refine ⟨hcanon, ?_⟩
  intro m md h
  obtain ⟨h1, h2, h3, h4⟩ := validate_metadata_ok_canonical m md h
  exact hcanon md h1 h2 h3 h4

/-- Witness for C9 at a concrete canonical structure. -/
theorem validate_metadata_idempotent_witness :
    (∀ t, (some "Rust" : Option String) = some t → pyStrip t = t ∧ t ≠ "") ∧
    (["Apple", "web", "code"] : List String).length = 3 ∧
    (∀ t ∈ (["Apple", "web", "code"] : List String), pyStrip t = t ∧ t ≠ "") ∧
    validate_metadata (metaDictOf
        { title := some "Rust", topics := ["Apple", "web", "code"], sentiment := "positive" }) =
      .ok { title := some "Rust", topics := ["Apple", "web", "code"], sentiment := "positive" } := by
  have h1 : ∀ t, (some "Rust" : Option String) = some t → pyStrip t = t ∧ t ≠ "" := by
    intro t ht
    rw [Option.some.injEq] at ht
    subst ht
    exact ⟨by decide, by decide⟩
  have h3 : ∀ t ∈ (["Apple", "web", "code"] : List String), pyStrip t = t ∧ t ≠ "" := by decide
  exact ⟨h1, rfl, h3,
    validate_metadata_idempotent.1
      { title := some "Rust", topics := ["Apple", "web", "code"], sentiment := "positive" }
      h1 rfl h3 (Or.inl rfl)⟩

/-! ## Confidence and keyword claims -/

/-- C5: evaluation at the failing input.  In the original text
`"NASA nasa nasa launch"` the token `"nasa"` appears all-uppercase, so
the claim (and the source comment `Bonus for capitalization in original
text`) demands the +1 bonus and a score of 4; but the code rebinds
`text` to its lowercased form before the membership tests, so neither
`"Nasa"` nor `"NASA"` is found and the score stays at the bare count 3:
the capitalization bonus is unreachable. -/
theorem regex_capitalization_bonus_unreachable :
    pyContains "NASA nasa nasa launch" "NASA" = true ∧
    regexScore [] "NASA nasa nasa launch" "nasa" = 3 ∧
    pyContains (pyLower "NASA nasa nasa launch") (pyTitle "nasa") = false ∧
    pyContains (pyLower "NASA nasa nasa launch") (pyUpper "nasa") = false := by
  refine ⟨rfl, by decide, rfl, rfl⟩

/-- C6 counterexample, two concrete refutations of the strict
inequality as stated.  First: with 10 keywords the unclamped keyword
bonus pushes both the fallback-marked and the unmarked score past the
1.0 clamp, so they are equal.  Second: against an empty "equivalent"
summary (which does not end with the marker), the fallback-marked
summary scores strictly HIGHER, because the empty summary also loses
the 0.3 base-content bonus. -/
theorem confidence_fallback_counterexample :
    (pyEndsWith "A summary. [Summary generated offline]" fallbackMarker = true ∧
     pyEndsWith "A summary." fallbackMarker = false ∧
     calculate_confidence_score "hello world" "A summary. [Summary generated offline]"
         ["k1", "k2", "k3", "k4", "k5", "k6", "k7", "k8", "k9", "k10"] =
       calculate_confidence_score "hello world" "A summary."
         ["k1", "k2", "k3", "k4", "k5", "k6", "k7", "k8", "k9", "k10"]) ∧
    (pyEndsWith "[Summary generated offline]" fallbackMarker = true ∧
     pyEndsWith "" fallbackMarker = false ∧
     calculate_confidence_score "hello" "" [] <
       calculate_confidence_score "hello" "[Summary generated offline]" []) := by
  have hsplit : (pySplitWs "hello world").length = 2 := rfl
  have hsplit2 : (pySplitWs "hello").length = 1 := rfl
  have he1 : pyEndsWith "A summary. [Summary generated offline]" fallbackMarker = true := rfl
  have he2 : pyEndsWith "A summary." fallbackMarker = false := rfl
  have he3 : pyEndsWith "[Summary generated offline]" fallbackMarker = true := rfl
  have he4 : pyEndsWith "" fallbackMarker = false := rfl
  refine ⟨⟨he1, he2, ?_⟩, ⟨he3, he4, ?_⟩⟩
  · simp only [calculate_confidence_score, hsplit, he1, he2]
    simp only [ne_eq, String.reduceEq, not_false_eq_true, and_self, if_true, and_true,
      List.cons_ne_nil, ite_false, ite_true, reduceCtorEq]
    norm_num [pyMin, pyMax]
  · simp only [calculate_confidence_score, hsplit2, he3, he4]
    simp only [ne_eq, String.reduceEq, not_false_eq_true, and_self, if_true, and_true,
      List.cons_ne_nil, ite_false, ite_true, reduceCtorEq]
    norm_num [pyMin, pyMax]

theorem pyMax_zero_of_nonneg (x : ℚ) (h : 0 ≤ x) : pyMax 0 x = x := by
  rw [pyMax, if_pos h]

theorem pyMin_one_of_le_one (x : ℚ) (h : x ≤ 1) : pyMin 1 x = x := by
  rw [pyMin]
  split
  · rename_i h2
    exact le_antisymm h2 h
  · rfl

theorem min_max_confidence_step (S : ℚ) (h0 : 0 ≤ S) (h7 : S ≤ 7/10) :
    pyMin 1 (pyMax 0 (S + 0.1)) < pyMin 1 (pyMax 0 (S + 0.3)) := by
  rw [pyMax_zero_of_nonneg _ (by norm_num; linarith), pyMax_zero_of_nonneg _ (by norm_num; linarith),
    pyMin_one_of_le_one _ (by norm_num; linarith), pyMin_one_of_le_one _ (by norm_num; linarith)]
  norm_num

/-- C6 amended: with at most 3 keywords (the pipeline always passes at
most `top_k = 3`) and a non-empty comparison summary, the scorer is
strictly lower on a fallback-marked summary than on an otherwise
equivalent summary not ending with the marker, for every text and
keyword list. -/
theorem confidence_fallback_strictly_lower (text s1 s2 : String) (keywords : List String)
    (hk : keywords.length ≤ 3)
    (h1 : pyEndsWith s1 fallbackMarker = true)
    (h2 : pyEndsWith s2 fallbackMarker = false)
    (h2ne : s2 ≠ "") :
    calculate_confidence_score text s1 keywords < calculate_confidence_score text s2 keywords := by
  have hs1ne : s1 ≠ "" := by
    intro he
    rw [he] at h1
    exact absurd h1 (by decide)
  simp only [calculate_confidence_score]
  have hends1 : ¬(s1 ≠ "" ∧ pyEndsWith s1 fallbackMarker = false) := by
    rintro ⟨-, hf⟩
    rw [h1] at hf
    exact Bool.noConfusion hf
  have hends2 : s2 ≠ "" ∧ pyEndsWith s2 fallbackMarker = false := ⟨h2ne, h2⟩
  rw [if_neg hends1, if_pos hends2]
  have hbase : (if text ≠ "" ∧ s1 ≠ "" then (0.3 : ℚ) else 0) =
      (if text ≠ "" ∧ s2 ≠ "" then (0.3 : ℚ) else 0) := by
    by_cases ht : text = "" <;> simp [ht, hs1ne, h2ne]
  rw [hbase]
  have hb : (0 : ℚ) ≤ (if text ≠ "" ∧ s2 ≠ "" then (0.3 : ℚ) else 0) ∧
      (if text ≠ "" ∧ s2 ≠ "" then (0.3 : ℚ) else 0) ≤ 3/10 := by
    split <;> norm_num
  have hl : (0 : ℚ) ≤ (if 50 < (pySplitWs text).length then (0.2 : ℚ)
        else if 20 < (pySplitWs text).length then 0.1 else 0) ∧
      (if 50 < (pySplitWs text).length then (0.2 : ℚ)
        else if 20 < (pySplitWs text).length then 0.1 else 0) ≤ 2/10 := by
    split
    · norm_num
    · split <;> norm_num
  have hkb : (0 : ℚ) ≤ (if keywords ≠ [] then 0.2 * ((keywords.length : ℚ) / 3) else 0) ∧
      (if keywords ≠ [] then 0.2 * ((keywords.length : ℚ) / 3) else 0) ≤ 2/10 := by
    split
    · have hc : (keywords.length : ℚ) ≤ 3 := by exact_mod_cast hk
      have hc0 : (0 : ℚ) ≤ (keywords.length : ℚ) := by positivity
      constructor
      · positivity
      · nlinarith
    · norm_num
  exact min_max_confidence_step _ (by linarith [hb.1, hl.1, hkb.1])
    (by linarith [hb.2, hl.2, hkb.2])

/-- Witness for the amended C6 at concrete inputs. -/
theorem confidence_fallback_strictly_lower_witness :
    ((["data"] : List String).length ≤ 3) ∧
    pyEndsWith "Nice. [Summary generated offline]" fallbackMarker = true ∧
    pyEndsWith "Nice." fallbackMarker = false ∧
    ("Nice." : String) ≠ "" ∧
    calculate_confidence_score "hi there" "Nice. [Summary generated offline]" ["data"] <
      calculate_confidence_score "hi there" "Nice." ["data"] :=
  ⟨by decide, rfl, rfl, by decide,
   confidence_fallback_strictly_lower "hi there" "Nice. [Summary generated offline]" "Nice."
     ["data"] (by decide) rfl rfl (by decide)⟩

/-- C8: For every record and every combination of given filters, the
endpoint's annotated confidence equals the formula the claim states:
0.5, plus 0.2 per topic containing the topic filter (case-insensitive)
when the topic filter is given, plus 0.15 per keyword containing the
keyword filter when given, plus 0.3 when the sentiment filter is given
and matches, clamped to at most 1.0.  (An absent or null list column
contributes a zero match count on both sides.) -/
theorem search_confidence_matches_claimed_formula
    (topic keyword sentiment : Option String) (a : AnalysisRecord) :
    search_confidence topic keyword sentiment a =
      claimed_search_confidence topic keyword sentiment a := by
  rcases a with ⟨tps, kws, snt⟩
  have ht : topicScoreContribution topic tps =
      (if optGiven topic then (0.2 : ℚ) * (ciMatchCount (topic.getD "") (tps.getD []) : ℚ)
       else 0) := by
    rcases topic with _ | tp
    · simp [topicScoreContribution, optGiven]
    · rcases tps with _ | ts
      · by_cases htp : tp = "" <;> simp [topicScoreContribution, optGiven, htp, ciMatchCount]
      · by_cases htp : tp = ""
        · simp [topicScoreContribution, optGiven, htp]
        · by_cases hts : ts = []
          · subst hts
            simp [topicScoreContribution, optGiven, htp, ciMatchCount]
          · simp [topicScoreContribution, optGiven, htp, hts]
  have hkw : keywordScoreContribution keyword kws =
      (if optGiven keyword then (0.15 : ℚ) * (ciMatchCount (keyword.getD "") (kws.getD []) : ℚ)
       else 0) := by
    rcases keyword with _ | kw
    · simp [keywordScoreContribution, optGiven]
    · rcases kws with _ | ks
      · by_cases hkp : kw = "" <;> simp [keywordScoreContribution, optGiven, hkp, ciMatchCount]
      · by_cases hkp : kw = ""
        · simp [keywordScoreContribution, optGiven, hkp]
        · by_cases hks : ks = []
          · subst hks
            simp [keywordScoreContribution, optGiven, hkp, ciMatchCount]
          · simp [keywordScoreContribution, optGiven, hkp, hks]
  have hs : sentimentScoreContribution sentiment snt =
      (if optGiven sentiment ∧ snt = pyLower (sentiment.getD "") then (0.3 : ℚ) else 0) := by
    rcases sentiment with _ | st
    · simp [sentimentScoreContribution, optGiven]
    · by_cases hst : st = "" <;> simp [sentimentScoreContribution, optGiven, hst]
  rw [search_confidence, claimed_search_confidence]
  dsimp only
  rw [ht, hkw, hs]

/-! ## Helper lemmas: character case and token provenance -/

theorem toNat_ofNatAux (n : Nat) (h : n.isValidChar) : (Char.ofNatAux n h).toNat = n := by
  simp [Char.ofNatAux, Char.toNat, UInt32.toNat]

theorem isUpper_iff_toNat (c : Char) : c.isUpper = true ↔ 65 ≤ c.toNat ∧ c.toNat ≤ 90 := by
  simp [Char.isUpper, Char.toNat, UInt32.le_def, BitVec.le_def, UInt32.toNat]

theorem toLower_isUpper_false (c : Char) : c.toLower.isUpper = false := by
  rw [Char.toLower]
  split
  · rename_i h
    have hv : (c.toNat + 32).isValidChar := Or.inl (by omega)
    rw [Char.ofNat, dif_pos hv]
    have h2 := toNat_ofNatAux (c.toNat + 32) hv
    rw [Bool.eq_false_iff]
    intro hu
    rw [isUpper_iff_toNat] at hu
    omega
  · rename_i h
    rw [Bool.eq_false_iff]
    intro hu
    rw [isUpper_iff_toNat] at hu
    exact h hu

theorem isLower_of_isAlpha_not_upper (c : Char) (h1 : c.isAlpha = true)
    (h2 : c.isUpper = false) : c.isLower = true := by
  rw [Char.isAlpha, h2, Bool.false_or] at h1
  exact h1

theorem pyLower_no_upper (s : String) (c : Char) (hc : c ∈ (pyLower s).data) :
    c.isUpper = false := by
  rcases List.mem_map.mp hc with ⟨c0, _, hc0⟩
  rw [← hc0]
  exact toLower_isUpper_false c0

theorem mem_runsGo (p : Char → Bool) : ∀ (l cur : List Char) (r : List Char),
    r ∈ runsGo p cur l → ∀ c ∈ r, c ∈ cur ∨ c ∈ l := by
  intro l
  induction l with
  | nil =>
    intro cur r hr c hc
    rw [runsGo] at hr
    split at hr
    · exact absurd hr (by simp)
    · have : r = cur.reverse := by simpa using hr
      subst this
      exact Or.inl (List.mem_reverse.mp hc)
  | cons a t ih =>
    intro cur r hr c hc
    rw [runsGo] at hr
    split at hr
    · rcases ih _ _ hr c hc with h | h
      · rcases List.mem_cons.mp h with h2 | h2
        · exact Or.inr (by simp [h2])
        · exact Or.inl h2
      · exact Or.inr (List.mem_cons_of_mem _ h)
    · split at hr
      · rcases ih _ _ hr c hc with h | h
        · exact absurd h (by simp)
        · exact Or.inr (List.mem_cons_of_mem _ h)
      · rcases List.mem_cons.mp hr with h | h
        · subst h
          exact Or.inl (List.mem_reverse.mp hc)
        · rcases ih _ _ h c hc with h2 | h2
          · exact absurd h2 (by simp)
          · exact Or.inr (List.mem_cons_of_mem _ h2)

theorem mem_wordRuns (l : List Char) (r : List Char) (hr : r ∈ wordRuns l) :
    ∀ c ∈ r, c ∈ l := by
  intro c hc
  rcases mem_runsGo wordChar l [] r hr c hc with h | h
  · exact absurd h (by simp)
  · exact h

theorem mem_dedupFirst_aux : ∀ (l acc : List String) (x : String),
    x ∈ l.foldl (fun acc x => if acc.contains x then acc else acc ++ [x]) acc →
    x ∈ acc ∨ x ∈ l := by
  intro l
  induction l with
  | nil =>
    intro acc x hx
    exact Or.inl hx
  | cons a t ih =>
    intro acc x hx
    rw [List.foldl_cons] at hx
    rcases ih _ x hx with h | h
    · split at h
      · exact Or.inl h
      · rcases List.mem_append.mp h with h2 | h2
        · exact Or.inl h2
        · have : x = a := by simpa using h2
          exact Or.inr (by simp [this])
    · exact Or.inr (List.mem_cons_of_mem _ h)

theorem mem_dedupFirst (l : List String) (x : String) (h : x ∈ dedupFirst l) : x ∈ l := by
  rcases mem_dedupFirst_aux l [] x h with h2 | h2
  · exact absurd h2 (by simp)
  · exact h2

theorem mem_insertDescBy (score : String → Int) (x y : String) :
    ∀ l, y ∈ insertDescBy score x l → y = x ∨ y ∈ l := by
  intro l
  induction l with
  | nil =>
    intro h
    have : y = x := by simpa [insertDescBy] using h
    exact Or.inl this
  | cons a t ih =>
    intro h
    rw [insertDescBy] at h
    split at h
    · rcases List.mem_cons.mp h with h2 | h2
      · exact Or.inl h2
      · exact Or.inr h2
    · rcases List.mem_cons.mp h with h2 | h2
      · exact Or.inr (by simp [h2])
      · rcases ih h2 with h3 | h3
        · exact Or.inl h3
        · exact Or.inr (List.mem_cons_of_mem _ h3)

theorem mem_stableSortDescBy (score : String → Int) :
    ∀ (l : List String) (y : String), y ∈ stableSortDescBy score l → y ∈ l := by
  intro l
  induction l with
  | nil =>
    intro y h
    exact absurd h (by simp [stableSortDescBy])
  | cons a t ih =>
    intro y h
    rw [stableSortDescBy] at h
    rcases mem_insertDescBy score a y _ h with h2 | h2
    · exact h2 ▸ List.mem_cons_self a t
    · exact List.mem_cons_of_mem _ (ih y h2)

theorem counterMostCommon_subset (xs : List String) (k : Nat) (y : String)
    (h : y ∈ counterMostCommon xs k) : y ∈ xs :=
  mem_dedupFirst _ _ (mem_stableSortDescBy _ _ _ (List.take_subset _ _ h))

theorem counterMostCommon_length (xs : List String) (k : Nat) :
    (counterMostCommon xs k).length ≤ k := by
  rw [counterMostCommon, List.length_take]
  omega

theorem applyMask_subset (ws : List String) (mask : List Bool) (y : String)
    (h : y ∈ applyMask ws mask) : y ∈ ws := by
  rw [applyMask] at h
  rcases List.mem_filterMap.mp h with ⟨⟨a, b⟩, hab, hy⟩
  have : a = y := by
    rcases b with _ | _
    · exact absurd hy (by simp)
    · simpa using hy
  subst this
  exact (List.of_mem_zip hab).1

theorem mem_filteredTokens (sw : List String) (tokens : List String) (t : String)
    (h : t ∈ filteredTokens sw tokens) :
    t ∈ tokens ∧ t ∉ sw ∧ 2 < t.length ∧ ∀ c ∈ t.data, c.isAlpha = true := by
  rw [filteredTokens] at h
  obtain ⟨hmem, hp⟩ := List.mem_filter.mp h
  simp only [Bool.and_eq_true, Bool.not_eq_true', decide_eq_true_eq] at hp
  obtain ⟨⟨hc, hlen⟩, ha⟩ := hp
  refine ⟨hmem, ?_, hlen, ?_⟩
  · simp [List.contains] at hc
    exact hc
  · rw [pyIsAlphaStr, Bool.and_eq_true] at ha
    exact fun c hcmem => List.all_eq_true.mp ha.2 c hcmem

theorem extract_with_regex_invariant (sw : List String) (text : String) (k : Nat) :
    (extract_with_regex sw text k).length ≤ k ∧
    ∀ w ∈ extract_with_regex sw text k,
      (∀ c ∈ w.data, c.isAlpha = true ∧ c.isLower = true) ∧ 3 ≤ w.length ∧ w ∉ sw := by
  rw [extract_with_regex]
  split
  · simp
  · refine ⟨by rw [List.length_take]; omega, ?_⟩
    intro w hw
    have hw3 : w ∈ regexFiltered sw text :=
      mem_dedupFirst _ _ (mem_stableSortDescBy _ _ _ (List.take_subset _ _ hw))
    rw [regexFiltered] at hw3
    obtain ⟨hmem, hnsw⟩ := List.mem_filter.mp hw3
    have hwns : w ∉ sw := by
      simp only [Bool.not_eq_true'] at hnsw
      simp [List.contains] at hnsw
      exact hnsw
    rw [regexAlphaTokens] at hmem
    rcases List.mem_map.mp hmem with ⟨r, hr, hrw⟩
    obtain ⟨hrmem, hrp⟩ := List.mem_filter.mp hr
    simp only [Bool.and_eq_true, decide_eq_true_eq] at hrp
    obtain ⟨hrlen, hralpha⟩ := hrp
    subst hrw
    refine ⟨?_, ?_, hwns⟩
    · intro c hc
      have hcr : c ∈ r := hc
      have halpha : c.isAlpha = true := List.all_eq_true.mp hralpha c hcr
      have hupp : c.isUpper = false :=
        pyLower_no_upper text c (mem_wordRuns _ r hrmem c hcr)
      exact ⟨halpha, isLower_of_isAlpha_not_upper c halpha hupp⟩
    · have hlen : (String.mk r).length = r.length := rfl
      omega

theorem nltk_select_invariant (sw : List String) (tokens : List String) (k : Nat) (low : String)
    (hprov : ∀ t ∈ tokens, ∀ c ∈ t.data, c.isAlpha = true → c ∈ low.data)
    (hlow : ∀ c ∈ low.data, c.isUpper = false)
    (nouns : List String) (hsub : ∀ w ∈ nouns, w ∈ filteredTokens sw tokens) :
    (if nouns.isEmpty then [] else counterMostCommon nouns k).length ≤ k ∧
    ∀ w ∈ (if nouns.isEmpty then [] else counterMostCommon nouns k),
      (∀ c ∈ w.data, c.isAlpha = true ∧ c.isLower = true) ∧ 3 ≤ w.length ∧ w ∉ sw := by
  split
  · simp
  · refine ⟨counterMostCommon_length _ k, ?_⟩
    intro w hw
    have hwf := hsub w (counterMostCommon_subset _ _ _ hw)
    obtain ⟨hmem, hnsw, hlen, halpha⟩ := mem_filteredTokens _ _ _ hwf
    refine ⟨?_, by omega, hnsw⟩
    intro c hc
    have ha := halpha c hc
    exact ⟨ha, isLower_of_isAlpha_not_upper c ha (hlow c (hprov w hmem c hc ha))⟩

theorem nltkFrom_invariant (env : NlpEnv) (tokens : List String) (k : Nat) (low : String)
    (hprov : ∀ t ∈ tokens, ∀ c ∈ t.data, c.isAlpha = true → c ∈ low.data)
    (hlow : ∀ c ∈ low.data, c.isUpper = false) :
    (nltkFrom env tokens k).length ≤ k ∧
    ∀ w ∈ nltkFrom env tokens k,
      (∀ c ∈ w.data, c.isAlpha = true ∧ c.isLower = true) ∧
      3 ≤ w.length ∧ w ∉ env.stop_words := by
  rw [nltkFrom]
  rcases hmask : env.tagNounMask (filteredTokens env.stop_words tokens) with _ | mask
  · exact nltk_select_invariant env.stop_words tokens k low hprov hlow _ (fun w hw => hw)
  · exact nltk_select_invariant env.stop_words tokens k low hprov hlow _
      (fun w hw => applyMask_subset _ _ _ hw)

/-- C10: For every string input and every k, each string returned by
`extract_keywords` (whichever tier produced it) is all-lowercase,
purely alphabetic, of length at least 3, and not in the configured
stop-word set; and the list has at most k elements.  The hypothesis
states the contract of the external tokenizer: alphabetic characters
of its tokens come from its input (the lowercased text); the built-in
fallback tokenizations satisfy it by construction. -/
theorem extract_keywords_output_invariant (env : NlpEnv) (text : String) (k : Nat)
    (htok : ∀ ts, env.tokenize (pyLower text) = .ok ts →
      ∀ t ∈ ts, ∀ c ∈ t.data, c.isAlpha = true → c ∈ (pyLower text).data) :
    (extract_keywords env text k).length ≤ k ∧
    ∀ w ∈ extract_keywords env text k,
      (∀ c ∈ w.data, c.isAlpha = true ∧ c.isLower = true) ∧
      3 ≤ w.length ∧ w ∉ env.stop_words := by
  rw [extract_keywords]
  split
  · simp
  · rcases htk : env.tokenize (pyLower text) with ts | _ | _
    · rw [extract_with_nltk, htk]
      exact nltkFrom_invariant env ts k (pyLower text) (htok ts htk) (pyLower_no_upper text)
    · rw [extract_with_nltk, htk]
      refine nltkFrom_invariant env _ k (pyLower text) ?_ (pyLower_no_upper text)
      intro t ht c hc _
      rw [regexWordTokens] at ht
      rcases List.mem_map.mp ht with ⟨r, hr, hrt⟩
      subst hrt
      exact mem_wordRuns _ r hr c hc
    · rw [extract_with_nltk, htk]
      exact extract_with_regex_invariant env.stop_words text k

/-- Witness for C10 at a concrete environment and text: the tokenizer
raises `LookupError`, so the regex fallback tokenization of Tier 1 runs. -/
theorem extract_keywords_output_invariant_witness :
    (∀ ts, sampleNlpEnv.tokenize (pyLower "The cat sat the cat") = .ok ts →
      ∀ t ∈ ts, ∀ c ∈ t.data, c.isAlpha = true → c ∈ (pyLower "The cat sat the cat").data) ∧
    ((extract_keywords sampleNlpEnv "The cat sat the cat" 3).length ≤ 3 ∧
     ∀ w ∈ extract_keywords sampleNlpEnv "The cat sat the cat" 3,
       (∀ c ∈ w.data, c.isAlpha = true ∧ c.isLower = true) ∧
       3 ≤ w.length ∧ w ∉ sampleNlpEnv.stop_words) := by
  have htok : ∀ ts, sampleNlpEnv.tokenize (pyLower "The cat sat the cat") = .ok ts →
      ∀ t ∈ ts, ∀ c ∈ t.data, c.isAlpha = true → c ∈ (pyLower "The cat sat the cat").data := by
    intro ts h
    exact absurd h (by simp [sampleNlpEnv])
  exact ⟨htok, extract_keywords_output_invariant sampleNlpEnv "The cat sat the cat" 3 htok⟩
